import Mathlib

/-!
Shallow embedding of the `card_creator` interview engine and tolerant
structured-data extractors, together with theorems checking the
natural-language specification against the code.

Text is modelled as `List Char`; Python strings map to Lean string
literals via `String.data`.  Python `None`-able string fields are
`Option (List Char)`.
-/

set_option maxHeartbeats 1000000
set_option maxRecDepth 10000

/-! ## Basic Python text helpers -/

/-- Python whitespace for `str.strip` / regex `\s` (ASCII range). -/
def pyIsSpace (c : Char) : Bool :=
  c = ' ' || c = '\t' || c = '\n' || c = '\r' || c = '\x0b' || c = '\x0c'

/-- Python `str.strip()` with no arguments. -/
def pyStrip (l : List Char) : List Char :=
  ((l.dropWhile pyIsSpace).reverse.dropWhile pyIsSpace).reverse

/-- Lowercase a char list, as Python `str.lower()` on ASCII text. -/
def lowerL (l : List Char) : List Char :=
  l.map Char.toLower

/-- Python `hay.find(pat)`: least index where `pat` starts, if any. -/
def findSub (hay pat : List Char) : Option Nat :=
  (List.range (hay.length + 1)).find? (fun i => pat.isPrefixOf (hay.drop i))

/-- Python `hay.rfind(pat)`: greatest index where `pat` starts, if any. -/
def rfindSub (hay pat : List Char) : Option Nat :=
  (List.range (hay.length + 1)).reverse.find? (fun i => pat.isPrefixOf (hay.drop i))

/-- Python `pat in hay` substring test. -/
def isSubstr (pat hay : List Char) : Bool :=
  (findSub hay pat).isSome

/-! ## TextScanner: the URL regex `https?://[^\s]+` (IGNORECASE)

`matchUrlAt` tries to match the pattern at the head of the list, returning
the matched text and the remaining suffix.  The regex engine first tries
the longer alternative `https://` (greedy `s?`), then `http://`, and the
body `[^\s]+` greedily takes at least one non-whitespace char. -/

def matchScheme (cs : List Char) (scheme : List Char) :
    Option (List Char × List Char) :=
  if lowerL (cs.take scheme.length) = scheme then
    let rest := cs.drop scheme.length
    let body := rest.takeWhile (fun c => !pyIsSpace c)
    if body.isEmpty then none
    else some (cs.take scheme.length ++ body, rest.drop body.length)
  else none

def matchUrlAt (cs : List Char) : Option (List Char × List Char) :=
  (matchScheme cs "https://".data).orElse (fun _ => matchScheme cs "http://".data)

/-- The scan loop of `re.findall`, with explicit fuel so that the
recursion is structural (by `matchUrlAt_shrinks` every match consumes at
least one character, so fuel equal to the input length never runs out). -/
def extractUrlsGo : Nat → List Char → List (List Char)
  | _, [] => []
  | 0, _ :: _ => []
  | fuel + 1, c :: rest =>
    match matchUrlAt (c :: rest) with
    | some (m, rest2) => m :: extractUrlsGo fuel rest2
    | none => extractUrlsGo fuel rest

/-- Python `re.findall(URL_PATTERN, text)`: left-to-right, non-overlapping. -/
def extract_urls (cs : List Char) : List (List Char) :=
  extractUrlsGo cs.length cs

def removeUrlsGo : Nat → List Char → List Char
  | _, [] => []
  | 0, l => l
  | fuel + 1, c :: rest =>
    match matchUrlAt (c :: rest) with
    | some (_, rest2) => removeUrlsGo fuel rest2
    | none => c :: removeUrlsGo fuel rest

/-- Python `URL_PATTERN.sub("", text)`: delete every match. -/
def removeUrls (cs : List Char) : List Char :=
  removeUrlsGo cs.length cs

/-! ## `merge_text` -/

/-- `merge_text(existing, addition)` from `requirements.py`. -/
def merge_text (existing : Option (List Char)) (addition : List Char) :
    List Char :=
  match existing with
  | none => addition
  | some e =>
    if e.isEmpty then addition
    else if isSubstr (lowerL addition) (lowerL e) then e
    else e ++ "; ".data ++ addition

/-! ## Card-type inference -/

/-- `CARD_TYPE_KEYWORD_MAP`, in Python dict insertion order. -/
def cardTypeKeywordMap : List (List Char × List (List Char)) :=
  [("personal".data, ["personal".data]),
   ("business".data, ["business".data, "corporate".data, "company".data]),
   ("invitation".data, ["invitation".data, "invite".data])]

/-- Stable insert for sorting `(index, card_type)` pairs by index;
Python `list.sort(key=...)` is a stable sort. -/
def insertByIdx (p : Nat × List Char) :
    List (Nat × List Char) → List (Nat × List Char)
  | [] => [p]
  | q :: rest => if p.1 ≤ q.1 then p :: q :: rest else q :: insertByIdx p rest

def sortByIdx : List (Nat × List Char) → List (Nat × List Char)
  | [] => []
  | p :: rest => insertByIdx p (sortByIdx rest)

/-- De-duplicate the matched card types, keeping first occurrences
(the `ordered_types` loop). -/
def dedupCats (ps : List (Nat × List Char)) : List (List Char) :=
  ps.foldl (fun acc pr => if acc.contains pr.2 then acc else acc ++ [pr.2]) []

def joinSpaces (ts : List (List Char)) : List Char :=
  List.intercalate " ".data ts

/-- `infer_card_type_from_text` from `requirements.py`. -/
def infer_card_type_from_text (text : List Char) : Option (List Char) :=
  let lowered := lowerL text
  let found := cardTypeKeywordMap.foldl
    (fun acc ctk =>
      match ctk.2.findSome? (fun kw => findSub lowered kw) with
      | some idx => acc ++ [(idx, ctk.1)]
      | none => acc) []
  if found.isEmpty then none
  else
    let ordered := dedupCats (sortByIdx found)
    if ordered.length = 1 then some (ordered.headD [])
    else some (joinSpaces ordered)

/-! ## The requirement record -/

structure CardRequirements where
  occasion : Option (List Char) := none
  card_type : Option (List Char) := none
  size : Option (List Char) := none
  recipient : Option (List Char) := none
  relationship : Option (List Char) := none
  tone : Option (List Char) := none
  message_focus : Option (List Char) := none
  personalization_details : Option (List Char) := none
  color_palette : Option (List Char) := none
  typography : Option (List Char) := none
  visual_style : Option (List Char) := none
  must_include_elements : Option (List Char) := none
  call_to_action : Option (List Char) := none
  delivery_format : Option (List Char) := none
  deadline : Option (List Char) := none
  additional_notes : Option (List Char) := none
  brand_notes : Option (List Char) := none
  image_urls : List (List Char) := []
deriving DecidableEq

/-- Python falsiness of an optional string field (`None` or `""`). -/
def pyFalsyOpt (v : Option (List Char)) : Bool :=
  match v with
  | none => true
  | some s => s.isEmpty

/-- `CardRequirements.required_fields_missing`. -/
def required_fields_missing (req : CardRequirements) : List String :=
  (if pyFalsyOpt req.occasion then ["occasion"] else []) ++
  (if pyFalsyOpt req.card_type then ["card_type"] else []) ++
  (if pyFalsyOpt req.size then ["size"] else [])

/-- `CardRequirements.is_core_complete`. -/
def is_core_complete (req : CardRequirements) : Bool :=
  (required_fields_missing req).isEmpty

/-! ## Questions and the question bank

The source stores per-question closures (`prompt_builder`, `condition`,
`handler`).  Following the defunctionalised form the spec itself suggests,
the two condition closures that occur are represented by a tag, and the
single custom handler (`_handle_image_answer`) by a boolean flag. -/

/-- Field selector for `CardRequirements` string fields. -/
inductive FieldId where
  | occasion | card_type | size | recipient | relationship | tone
  | message_focus | personalization_details | color_palette | typography
  | visual_style | must_include_elements | call_to_action | delivery_format
  | deadline | additional_notes | brand_notes
deriving DecidableEq

def getField (req : CardRequirements) : FieldId → Option (List Char)
  | .occasion => req.occasion
  | .card_type => req.card_type
  | .size => req.size
  | .recipient => req.recipient
  | .relationship => req.relationship
  | .tone => req.tone
  | .message_focus => req.message_focus
  | .personalization_details => req.personalization_details
  | .color_palette => req.color_palette
  | .typography => req.typography
  | .visual_style => req.visual_style
  | .must_include_elements => req.must_include_elements
  | .call_to_action => req.call_to_action
  | .delivery_format => req.delivery_format
  | .deadline => req.deadline
  | .additional_notes => req.additional_notes
  | .brand_notes => req.brand_notes

def setField (req : CardRequirements) (f : FieldId) (v : List Char) :
    CardRequirements :=
  match f with
  | .occasion => { req with occasion := some v }
  | .card_type => { req with card_type := some v }
  | .size => { req with size := some v }
  | .recipient => { req with recipient := some v }
  | .relationship => { req with relationship := some v }
  | .tone => { req with tone := some v }
  | .message_focus => { req with message_focus := some v }
  | .personalization_details => { req with personalization_details := some v }
  | .color_palette => { req with color_palette := some v }
  | .typography => { req with typography := some v }
  | .visual_style => { req with visual_style := some v }
  | .must_include_elements => { req with must_include_elements := some v }
  | .call_to_action => { req with call_to_action := some v }
  | .delivery_format => { req with delivery_format := some v }
  | .deadline => { req with deadline := some v }
  | .additional_notes => { req with additional_notes := some v }
  | .brand_notes => { req with brand_notes := some v }

/-- The two `condition` lambdas occurring in the question bank. -/
inductive Cond where
  | always
  | businessOnly
deriving DecidableEq

/-- `(req.card_type or "").lower().startswith("business")`. -/
def businessPrefixB (req : CardRequirements) : Bool :=
  "business".data.isPrefixOf (lowerL (req.card_type.getD []))

def Cond.eval : Cond → CardRequirements → Bool
  | .always, _ => true
  | .businessOnly, req => businessPrefixB req

structure Question where
  id : String
  fieldId : Option FieldId := none
  required : Bool := false
  imageHandler : Bool := false
  cond : Cond := .always
deriving DecidableEq

/-- `RequirementManager._build_question_bank`, in declaration order
(prompt text omitted: selection and ingestion never read it). -/
def questionBank : List Question :=
  [{ id := "occasion", fieldId := some .occasion, required := true },
   { id := "card_type", fieldId := some .card_type, required := true },
   { id := "size", fieldId := some .size, required := true },
   { id := "recipient", fieldId := some .recipient },
   { id := "relationship", fieldId := some .relationship },
   { id := "tone", fieldId := some .tone },
   { id := "message_focus", fieldId := some .message_focus },
   { id := "personalization_details", fieldId := some .personalization_details },
   { id := "color_palette", fieldId := some .color_palette },
   { id := "typography", fieldId := some .typography },
   { id := "visual_style", fieldId := some .visual_style },
   { id := "must_include_elements", fieldId := some .must_include_elements },
   { id := "call_to_action", fieldId := some .call_to_action, cond := .businessOnly },
   { id := "brand_notes", fieldId := some .brand_notes, cond := .businessOnly },
   { id := "delivery_format", fieldId := some .delivery_format },
   { id := "deadline", fieldId := some .deadline },
   { id := "image_urls", imageHandler := true },
   { id := "additional_notes", fieldId := some .additional_notes }]

/-! ## The interview session state machine -/

structure Session where
  req : CardRequirements := {}
  asked : List String := []
  active : Option Question := none
deriving DecidableEq

def initSession : Session := {}

/-- Append-if-unseen fold shared by `_capture_urls` and
`_handle_image_answer` (`if url not in image_urls: append`). -/
def appendNewFold (xs : List (List Char)) (us : List (List Char)) :
    List (List Char) :=
  us.foldl (fun acc u => if acc.contains u then acc else acc ++ [u]) xs

/-- `RequirementManager._capture_urls`. -/
def captureUrls (req : CardRequirements) (message : List Char) :
    CardRequirements :=
  let urls := extract_urls message
  if urls.isEmpty then req
  else { req with image_urls := appendNewFold req.image_urls urls }

/-- `RequirementManager._handle_image_answer`. -/
def handleImageAnswer (req : CardRequirements) (answer : List Char) :
    CardRequirements :=
  let urls := extract_urls answer
  let req1 :=
    if urls.isEmpty then req
    else { req with image_urls := appendNewFold req.image_urls urls }
  if !urls.isEmpty then
    let remaining := pyStrip (removeUrls answer)
    if remaining.isEmpty then req1
    else
      let merged := merge_text req1.must_include_elements remaining
      { req1 with must_include_elements := some merged }
  else if !(pyStrip answer).isEmpty then
    let merged := merge_text req1.must_include_elements (pyStrip answer)
    { req1 with must_include_elements := some merged }
  else req1

/-- `Question.apply_answer`. -/
def applyAnswer (q : Question) (req : CardRequirements) (answer : List Char) :
    CardRequirements :=
  if q.imageHandler then handleImageAnswer req answer
  else
    match q.fieldId with
    | some f =>
      let cleaned := pyStrip (removeUrls answer)
      setField req f (if cleaned.isEmpty then pyStrip answer else cleaned)
    | none => req

/-- `RequirementManager._auto_fill_from_answer`. -/
def autoFill (q : Question) (req : CardRequirements) (answer : List Char) :
    CardRequirements :=
  if q.id = "occasion" && (pyStrip (req.card_type.getD [])).isEmpty then
    match infer_card_type_from_text answer with
    | some inferred => { req with card_type := some inferred }
    | none => req
  else req

/-- `getattr(req, question.field or "", None)`. -/
def getFieldOpt (req : CardRequirements) : Option FieldId → Option (List Char)
  | none => none
  | some f => getField req f

/-- Skip test of the second pass:
`question.field and getattr(requirements, question.field, None)`. -/
def fieldFilled (req : CardRequirements) (q : Question) : Bool :=
  match q.fieldId with
  | some f => !(pyFalsyOpt (getField req f))
  | none => false

def askedInsert (asked : List String) (qid : String) : List String :=
  if asked.contains qid then asked else qid :: asked

/-- `RequirementManager.next_question`: pass 1 prioritises mandatory
fields, pass 2 walks the bank skipping asked / inapplicable / filled
questions.  Returns the selected question together with the updated
session (active question set, id added to the asked set). -/
def next_question (s : Session) : Option Question × Session :=
  match questionBank.find? (fun q =>
      if q.required && pyFalsyOpt (getFieldOpt s.req q.fieldId) then
        q.cond.eval s.req
      else false) with
  | some q => (some q, { s with active := some q, asked := askedInsert s.asked q.id })
  | none =>
    match questionBank.find? (fun q =>
        if s.asked.contains q.id then false
        else if !q.cond.eval s.req then false
        else if fieldFilled s.req q then false
        else true) with
    | some q => (some q, { s with active := some q, asked := askedInsert s.asked q.id })
    | none => (none, { s with active := none })

/-- `RequirementManager.ingest_answer`. -/
def ingest_answer (s : Session) (answer : List Char) : Session :=
  let a := pyStrip answer
  if a.isEmpty then s
  else
    let req1 := captureUrls s.req a
    match s.active with
    | none => { s with req := req1 }
    | some q =>
      let req2 := applyAnswer q req1 a
      let req3 := autoFill q req2 a
      { s with req := req3 }

/-- `RequirementManager.has_more_questions` (pure: reads the same state
`next_question` reads, mutating nothing). -/
def has_more_questions (s : Session) : Bool :=
  (questionBank.any (fun q =>
      q.required && pyFalsyOpt (getFieldOpt s.req q.fieldId) &&
        q.cond.eval s.req)) ||
  (questionBank.any (fun q =>
      if s.asked.contains q.id then false
      else if !q.cond.eval s.req then false
      else if fieldFilled s.req q then false
      else true))

/-! ## Interview runs -/

/-- One externally-driven step of the interview loop: either the driver
asks for the next question or feeds an answer into the manager. -/
inductive Event where
  | ask
  | answer (text : List Char)

def stepEvent (s : Session) : Event → Session
  | .ask => (next_question s).2
  | .answer a => ingest_answer s a

/-- The session reached from a fresh manager by a list of events. -/
def reach (evs : List Event) : Session :=
  evs.foldl stepEvent initSession

/-! ## StructuredExtractor: balanced-segment scan (`_extract_balanced_segment`) -/

structure ScanState where
  depth : Int
  inString : Bool
  escape : Bool
deriving DecidableEq

def scanInit : ScanState := { depth := 0, inString := false, escape := false }

/-- One iteration of the `_extract_balanced_segment` loop.  Returns the
updated state and whether the loop returns at this character (matching
closer took the depth back to zero). -/
def scanStep (opener closer : Char) (st : ScanState) (ch : Char) :
    ScanState × Bool :=
  if st.inString then
    if st.escape then ({ st with escape := false }, false)
    else if ch = '\\' then ({ st with escape := true }, false)
    else if ch = '"' then ({ st with inString := false }, false)
    else (st, false)
  else if ch = '"' then ({ st with inString := true }, false)
  else if ch = opener then ({ st with depth := st.depth + 1 }, false)
  else if ch = closer then ({ st with depth := st.depth - 1 }, st.depth - 1 = 0)
  else (st, false)

/-- Run the scanner over a char list, returning the final state. -/
def runScan (opener closer : Char) (st : ScanState) (s : List Char) : ScanState :=
  s.foldl (fun a ch => (scanStep opener closer a ch).1) st

/-- The loop of `_extract_balanced_segment`, returning the relative index
of the character at which the function returns, if any. -/
def balLoop (opener closer : Char) (st : ScanState) : List Char → Option Nat
  | [] => none
  | ch :: rest =>
    let r := scanStep opener closer st ch
    if r.2 then some 0 else (balLoop opener closer r.1 rest).map (· + 1)

/-- `CardDesignCrew._extract_balanced_segment(message, start, opener, closer)`:
`message[start : index + 1]` for the index at which the scan returns. -/
def extract_balanced_segment (message : List Char) (start : Nat)
    (opener closer : Char) : Option (List Char) :=
  (balLoop opener closer scanInit (message.drop start)).map
    (fun j => (message.drop start).take (j + 1))

/-- Whether the scan started in state `st` returns at relative index `j`. -/
def stopsAtB (opener closer : Char) (st : ScanState) (s : List Char) (j : Nat) :
    Bool :=
  match s.drop j with
  | [] => false
  | ch :: _ => (scanStep opener closer (runScan opener closer st (s.take j)) ch).2

/-! ## StructuredExtractor: JSON-object recovery (`_safe_parse_json`) -/

/-- Top-level shape of a value returned by the external `json.loads`:
a key-value mapping, a list, or a scalar.  The parser itself is outside
this repository, so `safe_parse_json` is parametrised over it. -/
inductive PyVal where
  | obj (entries : List (String × PyVal))
  | arr (items : List PyVal)
  | scalar (repr : String)

def PyVal.isDict : PyVal → Bool
  | .obj _ => true
  | _ => false

/-- The `collect_segment` inner helper of `_iter_json_candidates`: walk the
occurrences of `sc` left to right and keep the first balanced segment. -/
def collectSegment (payload : List Char) (sc ec : Char) : Option (List Char) :=
  (List.range payload.length).findSome? (fun i =>
    if payload.get? i = some sc then extract_balanced_segment payload i sc ec
    else none)

/-- `CardDesignCrew._iter_json_candidates`. -/
def iter_json_candidates (payload : List Char) : List (List Char) :=
  let braceSeg := collectSegment payload '{' '}'
  let bracketSeg := collectSegment payload '[' ']'
  let candidates := braceSeg.toList ++ bracketSeg.toList
  if candidates.isEmpty then [payload] else candidates

/-- `CardDesignCrew._safe_parse_json`, parametrised over the external
JSON parser (`json.loads`; a `JSONDecodeError` is `none`). -/
def safe_parse_json (parse : List Char → Option PyVal) (payload : List Char) :
    Option PyVal :=
  if payload.isEmpty then none
  else
    let p := pyStrip payload
    if p.isEmpty then none
    else
      (iter_json_candidates p).findSome? (fun cand =>
        match parse cand with
        | none => none
        | some parsed => if parsed.isDict then some parsed else none)

/-! ## StructuredExtractor: HTML document recovery (`_extract_html_document`) -/

/-- Python line-boundary characters for `str.splitlines`. -/
def pyIsLineBreak (c : Char) : Bool :=
  c = '\n' || c = '\r' || c = '\x0b' || c = '\x0c' ||
  c = '\x1c' || c = '\x1d' || c = '\x1e' || c = '\x85' ||
  c = '\u2028' || c = '\u2029'

def splitlinesGo : List Char → List Char → List (List Char)
  | [], acc => if acc.isEmpty then [] else [acc.reverse]
  | '\r' :: '\n' :: rest, acc => acc.reverse :: splitlinesGo rest []
  | c :: rest, acc =>
    if pyIsLineBreak c then acc.reverse :: splitlinesGo rest []
    else splitlinesGo rest (c :: acc)

/-- Python `str.splitlines()`. -/
def pySplitlines (l : List Char) : List (List Char) :=
  splitlinesGo l []

def fenceMark : List Char := "```".data

def joinNewline (ls : List (List Char)) : List Char :=
  List.intercalate ['\n'] ls

/-- `CardDesignCrew._strip_code_fences`. -/
def strip_code_fences (text : List Char) : List Char :=
  match pySplitlines text with
  | [] => []
  | l0 :: rest =>
    let lines := if fenceMark.isPrefixOf (pyStrip l0) then rest else l0 :: rest
    let lines2 :=
      (lines.reverse.dropWhile (fun l => fenceMark.isPrefixOf (pyStrip l))).reverse
    pyStrip (joinNewline lines2)

/-- The trim- and fence-handling steps of `_extract_html_document`
(everything before the doctype scan). -/
def htmlProcessed (payload : List Char) : Option (List Char) :=
  if payload.isEmpty then none
  else
    let text := pyStrip payload
    if text.isEmpty then none
    else if fenceMark.isPrefixOf text then
      let t2 := strip_code_fences text
      if t2.isEmpty then none else some t2
    else some text

/-- Start-index selection: the smaller of the `<!doctype` and `<html`
finds, whichever are present. -/
def startIndexOf (lower : List Char) : Option Nat :=
  match findSub lower "<!doctype".data, findSub lower "<html".data with
  | some d, some h => some (min d h)
  | some d, none => some d
  | none, some h => some h
  | none, none => none

/-- The doctype/closing-tag scan of `_extract_html_document` on the
processed text. -/
def docCore (text : List Char) : Option (List Char) :=
  let lower := lowerL text
  match startIndexOf lower with
  | none => none
  | some st =>
    match rfindSub lower "</html>".data with
    | some e => some (pyStrip ((text.take (e + 7)).drop st))
    | none =>
      if st = 0 then some text
      else if isSubstr "</html".data (lower.drop st) then
        some (pyStrip (text.drop st))
      else none

/-- `CardDesignCrew._extract_html_document`. -/
def extract_html_document (payload : List Char) : Option (List Char) :=
  match htmlProcessed payload with
  | none => none
  | some t => docCore t

/-- Invariant maintained by every interview step: the pending question
comes from the bank and has already been marked asked, and the
business-only target fields can only be non-empty once their question
was surfaced. -/
def SessionInv (s : Session) : Prop :=
  (∀ q, s.active = some q → q ∈ questionBank ∧ q.id ∈ s.asked) ∧
  (pyFalsyOpt s.req.call_to_action = false → "call_to_action" ∈ s.asked) ∧
  (pyFalsyOpt s.req.brand_notes = false → "brand_notes" ∈ s.asked)

/-- The required occasion question of the bank. -/
def occasionQuestion : Question :=
  { id := "occasion", fieldId := some .occasion, required := true }

/-- The business-only `call_to_action` question of the bank. -/
def c2aQuestion : Question :=
  { id := "call_to_action", fieldId := some .call_to_action,
    cond := .businessOnly }

/-- The business-only `brand_notes` question of the bank. -/
def brandQuestion : Question :=
  { id := "brand_notes", fieldId := some .brand_notes,
    cond := .businessOnly }

/-- A concrete interview run whose inferred/typed card type merely
*contains* `"business"` ("my business card") without starting with it. -/
def c4ContainsRun : List Event :=
  [.ask, .answer "office gathering".data,
   .ask, .answer "my business card".data,
   .ask, .answer "A5".data,
   .ask, .answer "Ali".data,
   .ask, .answer "friend".data,
   .ask, .answer "warm".data,
   .ask, .answer "thanks".data,
   .ask, .answer "none special".data,
   .ask, .answer "blue".data,
   .ask, .answer "serif".data,
   .ask, .answer "minimal".data,
   .ask, .answer "logo".data,
   .ask, .answer "pdf".data,
   .ask, .answer "friday".data,
   .ask, .answer "no images".data,
   .ask, .answer "none more".data]

/-- A concrete interview run whose card type *starts with* `"business"`
("business card for Acme"), so the two business questions are surfaced. -/
def c4BusinessRun : List Event :=
  [.ask, .answer "office gathering".data,
   .ask, .answer "business card for Acme".data,
   .ask, .answer "A5".data,
   .ask, .answer "Ali".data,
   .ask, .answer "friend".data,
   .ask, .answer "warm".data,
   .ask, .answer "thanks".data,
   .ask, .answer "none special".data,
   .ask, .answer "blue".data,
   .ask, .answer "serif".data,
   .ask, .answer "minimal".data,
   .ask, .answer "logo".data,
   .ask, .answer "call us today".data,
   .ask, .answer "red logo".data,
   .ask, .answer "pdf".data,
   .ask, .answer "friday".data,
   .ask, .answer "no images".data,
   .ask, .answer "none more".data]

/-- The index the code keys each category on: the position of the first
*listed* keyword (in the category's configured tuple order) found in the
lowered text — the `for keyword in keywords: ... break` loop. -/
def firstListedKeywordIdx (lowered : List Char) (kws : List (List Char)) :
    Option Nat :=
  kws.findSome? (fun kw => findSub lowered kw)

/-- The matched `(index, card_type)` pairs the code collects, one per
category with an occurring keyword, in map insertion order. -/
def matchedPairs (text : List Char) : List (Nat × List Char) :=
  cardTypeKeywordMap.filterMap (fun ctk =>
    (firstListedKeywordIdx (lowerL text) ctk.2).map (fun i => (i, ctk.1)))

/-- Modelled from the claim's words: a matched category keyed by the
*earliest occurrence in the text* of any of its configured keywords
("orders the distinct matched categories by first occurrence in the
text"). -/
def categoryEarliestIdx (lowered : List Char) (kws : List (List Char)) :
    Option Nat :=
  (kws.filterMap (fun kw => findSub lowered kw)).min?

/-- Modelled from the claim's words: the inference rule with categories
ordered by their earliest keyword occurrence in the text. -/
def infer_card_type_claim_order (text : List Char) : Option (List Char) :=
  let found := cardTypeKeywordMap.filterMap (fun ctk =>
    (categoryEarliestIdx (lowerL text) ctk.2).map (fun i => (i, ctk.1)))
  if found.isEmpty then none
  else
    let ordered := dedupCats (sortByIdx found)
    if ordered.length = 1 then some (ordered.headD [])
    else some (joinSpaces ordered)

/-- A stub external parser recognising one fixed object literal, used to
instantiate `c1_parse_best_effort` at concrete inputs. -/
def stubParse : List Char → Option PyVal := fun _ => none

/-! ## Generic helper lemmas -/

theorem matchScheme_shrinks (cs scheme m rest : List Char)
    (hs : scheme ≠ [])
    (h : matchScheme cs scheme = some (m, rest)) : rest.length < cs.length := by
  unfold matchScheme at h
  split at h
  · rename_i hlow
    dsimp only at h
    split at h
    · exact absurd h (by simp)
    · rename_i hbody
      simp only [Option.some.injEq, Prod.mk.injEq] at h
      obtain ⟨-, hr⟩ := h
      have hlen : scheme.length ≤ cs.length := by
        have := congrArg List.length hlow
        simp only [lowerL, List.length_map, List.length_take] at this
        omega
      have hbne : (cs.drop scheme.length).takeWhile (fun c => !pyIsSpace c) ≠ [] := by
        simpa using hbody
      have hpos : 0 < ((cs.drop scheme.length).takeWhile
          (fun c => !pyIsSpace c)).length := List.length_pos.mpr hbne
      have hspos : 0 < scheme.length := List.length_pos.mpr hs
      have : rest.length = (cs.drop scheme.length).length -
          ((cs.drop scheme.length).takeWhile (fun c => !pyIsSpace c)).length := by
        rw [← hr]; simp; omega
      simp only [List.length_drop] at this
      omega
  · exact absurd h (by simp)

theorem matchUrlAt_shrinks (cs : List Char) (m rest : List Char)
    (h : matchUrlAt cs = some (m, rest)) : rest.length < cs.length := by
  unfold matchUrlAt at h
  rcases ho : matchScheme cs "https://".data with _ | p
  · rw [ho] at h
    simp only [Option.orElse] at h
    exact matchScheme_shrinks cs "http://".data m rest (by decide) h
  · rw [ho] at h
    simp only [Option.orElse] at h
    injection h with h2
    rw [h2] at ho
    exact matchScheme_shrinks cs "https://".data m rest (by decide) ho


theorem any_eq_find_isSome {α : Type} (l : List α) (p : α → Bool) :
    l.any p = (l.find? p).isSome := by
  induction l with
  | nil => rfl
  | cons a t ih =>
    cases h : p a
    · simp [List.any_cons, List.find?_cons, h, ih]
    · simp [List.any_cons, List.find?_cons, h]

theorem isSubstr_true_iff (pat hay : List Char) :
    isSubstr pat hay = true ↔ pat <:+: hay := by
  unfold isSubstr findSub
  rw [← any_eq_find_isSome, List.any_eq_true]
  constructor
  · rintro ⟨i, _, hp⟩
    exact (List.isPrefixOf_iff_prefix.mp hp).isInfix.trans
      (List.drop_suffix i hay).isInfix
  · rintro ⟨s, t, h⟩
    refine ⟨s.length, List.mem_range.mpr ?_, ?_⟩
    · have := congrArg List.length h
      simp only [List.length_append] at this
      omega
    · have hd : hay.drop s.length = pat ++ t := by
        rw [← h, List.append_assoc, List.drop_left]
      rw [hd]
      exact List.isPrefixOf_iff_prefix.mpr (List.prefix_append pat t)


/-! ## C7: required fields -/

/-- C7: `required_fields_missing` returns exactly the names `occasion`,
`card_type`, `size` in that fixed order restricted to the fields that are
currently empty or absent (a fresh record yields all three, a record with
all three set yields `[]`), and `is_core_complete` is true exactly when
that list is empty. -/
theorem c7_required_fields (req : CardRequirements) :
    (required_fields_missing req =
      (["occasion", "card_type", "size"].filter (fun n =>
        pyFalsyOpt (if n = "occasion" then req.occasion
          else if n = "card_type" then req.card_type else req.size)))) ∧
    (is_core_complete req = true ↔ required_fields_missing req = []) ∧
    (required_fields_missing {} = ["occasion", "card_type", "size"]) ∧
    (pyFalsyOpt req.occasion = false → pyFalsyOpt req.card_type = false →
      pyFalsyOpt req.size = false → required_fields_missing req = []) := by
  refine ⟨?_, ?_, by rfl, ?_⟩
  · cases ho : pyFalsyOpt req.occasion <;>
      cases hc : pyFalsyOpt req.card_type <;>
      cases hs : pyFalsyOpt req.size <;>
      simp [required_fields_missing, List.filter, ho, hc, hs]
  · rw [is_core_complete, List.isEmpty_iff]
  · intro ho hc hs
    simp [required_fields_missing, ho, hc, hs]

/-- Closed witness for `c7_required_fields` at a fully-populated record. -/
theorem c7_required_fields_witness :
    required_fields_missing
      { occasion := some "party".data, card_type := some "personal".data,
        size := some "A5".data } = [] :=
  (c7_required_fields _).2.2.2 (by decide) (by decide) (by decide)

/-! ## C8: blank answers are a complete no-op -/

/-- C8: for every session state and every blank or whitespace-only answer,
`ingest_answer` returns the session unchanged (record, image URLs, asked
set and pending question all identical) and, being total, raises nothing. -/
theorem c8_blank_answer_noop (s : Session) (a : List Char)
    (h : pyStrip a = []) : ingest_answer s a = s := by
  unfold ingest_answer
  simp [h]

/-- Closed witness for `c8_blank_answer_noop` on a whitespace-only answer. -/
theorem c8_blank_answer_noop_witness :
    pyStrip "  \t\n ".data = [] ∧
      ingest_answer initSession "  \t\n ".data = initSession :=
  ⟨by decide, c8_blank_answer_noop initSession "  \t\n ".data (by decide)⟩

/-! ## C9: `merge_text` idempotence -/

/-- C9: `merge_text` returns the addition when there is no existing value,
returns the existing value unchanged when the addition is already a
case-insensitive substring of it, and is idempotent under repeated
addition — in particular on the spec's `"logo"` example. -/
theorem c9_merge_text_idempotent :
    (∀ add, merge_text none add = add) ∧
    (∀ e add, e.isEmpty = false → isSubstr (lowerL add) (lowerL e) = true →
      merge_text (some e) add = e) ∧
    (∀ e add, merge_text (some (merge_text e add)) add = merge_text e add) ∧
    (merge_text (some (merge_text none "logo".data)) "logo".data =
      merge_text none "logo".data) := by
  have hself : ∀ add : List Char, add.isEmpty = false →
      merge_text (some add) add = add := by
    intro add hne
    have hsub : isSubstr (lowerL add) (lowerL add) = true :=
      (isSubstr_true_iff _ _).mpr (List.infix_refl _)
    simp [merge_text, hne, hsub]
  have habsorb : ∀ add : List Char, merge_text (some add) add = add := by
    intro add
    cases hne : add.isEmpty
    · exact hself add hne
    · have : add = [] := List.isEmpty_iff.mp hne
      subst this
      simp [merge_text]
  have hsubmerge : ∀ e add : List Char, e.isEmpty = false →
      isSubstr (lowerL add) (lowerL e) = true → merge_text (some e) add = e := by
    intro e add hne hsub
    simp [merge_text, hne, hsub]
  refine ⟨fun _ => rfl, hsubmerge, ?_, ?_⟩
  · intro e add
    match e with
    | none => exact habsorb add
    | some ev =>
      cases hev : ev.isEmpty
      · cases hsub : isSubstr (lowerL add) (lowerL ev)
        · have hres : merge_text (some ev) add = ev ++ "; ".data ++ add := by
            simp [merge_text, hev, hsub]
          rw [hres]
          have hne2 : (ev ++ "; ".data ++ add).isEmpty = false := by
            cases h : (ev ++ "; ".data ++ add).isEmpty
            · rfl
            · have := List.isEmpty_iff.mp h
              simp at this
          have hsub2 : isSubstr (lowerL add)
              (lowerL (ev ++ "; ".data ++ add)) = true := by
            refine (isSubstr_true_iff _ _).mpr ?_
            have : lowerL (ev ++ "; ".data ++ add) =
                (lowerL ev ++ lowerL "; ".data) ++ lowerL add := by
              simp [lowerL]
            rw [this]
            exact (List.suffix_append _ _).isInfix
          exact hsubmerge _ _ hne2 hsub2
        · have hres : merge_text (some ev) add = ev := by
            simp [merge_text, hev, hsub]
          rw [hres]
          simp [merge_text, hev, hsub]
      · have hres : merge_text (some ev) add = add := by
          simp [merge_text, hev]
        rw [hres]
        exact habsorb add
  · have h1 : merge_text none "logo".data = "logo".data := rfl
    rw [h1]
    exact habsorb "logo".data

/-- Closed witness for `c9_merge_text_idempotent`: the substring branch at
a concrete pair with different letter case. -/
theorem c9_merge_text_idempotent_witness :
    ("Logo big".data).isEmpty = false ∧
      merge_text (some "Logo big".data) "logo".data = "Logo big".data :=
  ⟨by decide, c9_merge_text_idempotent.2.1 "Logo big".data "logo".data
    (by decide) (by decide)⟩

/-! ## C10: `has_more_questions` agrees with `next_question` -/

/-- C10: for every session state, `has_more_questions` is true exactly when
`next_question` run on the same state would return a question; the Lean
model of `has_more_questions` is a pure function of the state, mutating
neither the asked set nor the pending question. -/
theorem c10_has_more_agrees (s : Session) :
    has_more_questions s = ((next_question s).1).isSome := by
  unfold has_more_questions next_question
  have hfun : (fun q : Question =>
      if q.required && pyFalsyOpt (getFieldOpt s.req q.fieldId) then
        q.cond.eval s.req
      else false) =
      (fun q : Question =>
        q.required && pyFalsyOpt (getFieldOpt s.req q.fieldId) &&
          q.cond.eval s.req) := by
    funext q
    cases h : q.required && pyFalsyOpt (getFieldOpt s.req q.fieldId) <;>
      simp [h]
  rw [hfun]
  rw [any_eq_find_isSome, any_eq_find_isSome]
  rcases h1 : questionBank.find? (fun q =>
      q.required && pyFalsyOpt (getFieldOpt s.req q.fieldId) &&
        q.cond.eval s.req) with _ | q
  · rcases h2 : questionBank.find? (fun q =>
        if s.asked.contains q.id then false
        else if !q.cond.eval s.req then false
        else if fieldFilled s.req q then false
        else true) with _ | q2
    · simp only [h1, h2]
      simp
    · simp only [h1, h2]
      simp
  · simp only [h1]
    simp

/-! ## Lemmas about the append-if-unseen fold -/

theorem appendNewFold_nil (xs : List (List Char)) : appendNewFold xs [] = xs :=
  rfl

theorem appendNewFold_cons (xs : List (List Char)) (u : List Char)
    (us : List (List Char)) :
    appendNewFold xs (u :: us) =
      appendNewFold (if xs.contains u then xs else xs ++ [u]) us := rfl

theorem mem_appendNewFold_left {x : List Char} {xs : List (List Char)}
    (us : List (List Char)) (h : x ∈ xs) : x ∈ appendNewFold xs us := by
  induction us generalizing xs with
  | nil => exact h
  | cons u us ih =>
    rw [appendNewFold_cons]
    by_cases hc : u ∈ xs
    · rw [show (if xs.contains u then xs else xs ++ [u]) = xs by simp [hc]]
      exact ih h
    · rw [show (if xs.contains u then xs else xs ++ [u]) = xs ++ [u] by
        simp [hc]]
      exact ih (by simp [h])

theorem mem_appendNewFold_iff (x : List Char) (xs us : List (List Char)) :
    x ∈ appendNewFold xs us ↔ x ∈ xs ∨ x ∈ us := by
  induction us generalizing xs with
  | nil => simp [appendNewFold_nil]
  | cons u us ih =>
    rw [appendNewFold_cons]
    by_cases hc : u ∈ xs
    · rw [show (if xs.contains u then xs else xs ++ [u]) = xs by simp [hc], ih]
      simp only [List.mem_cons]
      constructor
      · rintro (h | h)
        · exact Or.inl h
        · exact Or.inr (Or.inr h)
      · rintro (h | rfl | h)
        · exact Or.inl h
        · exact Or.inl hc
        · exact Or.inr h
    · rw [show (if xs.contains u then xs else xs ++ [u]) = xs ++ [u] by
        simp [hc], ih]
      simp [List.mem_append, or_assoc]

theorem appendNewFold_front (xs us : List (List Char)) :
    xs <+: appendNewFold xs us := by
  induction us generalizing xs with
  | nil => exact List.prefix_refl xs
  | cons u us ih =>
    rw [appendNewFold_cons]
    by_cases hc : u ∈ xs
    · rw [show (if xs.contains u then xs else xs ++ [u]) = xs by simp [hc]]
      exact ih xs
    · rw [show (if xs.contains u then xs else xs ++ [u]) = xs ++ [u] by
        simp [hc]]
      exact (List.prefix_append xs [u]).trans (ih (xs ++ [u]))

theorem appendNewFold_nodup {xs : List (List Char)} (us : List (List Char))
    (h : xs.Nodup) : (appendNewFold xs us).Nodup := by
  induction us generalizing xs with
  | nil => exact h
  | cons u us ih =>
    rw [appendNewFold_cons]
    by_cases hc : u ∈ xs
    · rw [show (if xs.contains u then xs else xs ++ [u]) = xs by simp [hc]]
      exact ih h
    · rw [show (if xs.contains u then xs else xs ++ [u]) = xs ++ [u] by
        simp [hc]]
      exact ih (by simp [List.nodup_append, h, hc])

theorem appendNewFold_absorb (xs us : List (List Char))
    (h : ∀ u ∈ us, u ∈ xs) : appendNewFold xs us = xs := by
  induction us generalizing xs with
  | nil => rfl
  | cons u us ih =>
    rw [appendNewFold_cons]
    have hu : u ∈ xs := h u (by simp)
    rw [show (if xs.contains u then xs else xs ++ [u]) = xs by simp [hu]]
    exact ih xs (fun v hv => h v (by simp [hv]))

theorem appendNewFold_idem (xs us : List (List Char)) :
    appendNewFold (appendNewFold xs us) us = appendNewFold xs us :=
  appendNewFold_absorb _ _ (fun u hu =>
    (mem_appendNewFold_iff u xs us).mpr (Or.inr hu))

/-! ## Field-projection lemmas -/

theorem setField_image_urls (req : CardRequirements) (f : FieldId)
    (v : List Char) : (setField req f v).image_urls = req.image_urls := by
  cases f <;> rfl

theorem setField_call_to_action (req : CardRequirements) (f : FieldId)
    (v : List Char) : (setField req f v).call_to_action =
      if f = FieldId.call_to_action then some v else req.call_to_action := by
  cases f <;> rfl

theorem setField_brand_notes (req : CardRequirements) (f : FieldId)
    (v : List Char) : (setField req f v).brand_notes =
      if f = FieldId.brand_notes then some v else req.brand_notes := by
  cases f <;> rfl

theorem captureUrls_image_urls (req : CardRequirements) (m : List Char) :
    (captureUrls req m).image_urls =
      appendNewFold req.image_urls (extract_urls m) := by
  by_cases h : (extract_urls m).isEmpty
  · have h2 := List.isEmpty_iff.mp h
    simp [captureUrls, h, h2, appendNewFold_nil]
  · simp [captureUrls, h]

theorem captureUrls_other (req : CardRequirements) (m : List Char) :
    (captureUrls req m).call_to_action = req.call_to_action ∧
    (captureUrls req m).brand_notes = req.brand_notes := by
  by_cases h : (extract_urls m).isEmpty <;> simp [captureUrls, h]

theorem handleImageAnswer_image_urls (req : CardRequirements)
    (a : List Char) : (handleImageAnswer req a).image_urls =
      appendNewFold req.image_urls (extract_urls a) := by
  by_cases h1 : (extract_urls a).isEmpty
  · have h3 := List.isEmpty_iff.mp h1
    by_cases h2 : (pyStrip a).isEmpty <;>
      simp [handleImageAnswer, h1, h2, h3, appendNewFold_nil]
  · by_cases h2 : (pyStrip (removeUrls a)).isEmpty <;>
      simp [handleImageAnswer, h1, h2]

theorem handleImageAnswer_other (req : CardRequirements) (a : List Char) :
    (handleImageAnswer req a).call_to_action = req.call_to_action ∧
    (handleImageAnswer req a).brand_notes = req.brand_notes := by
  by_cases h1 : (extract_urls a).isEmpty
  · by_cases h2 : (pyStrip a).isEmpty <;>
      simp [handleImageAnswer, h1, h2]
  · by_cases h2 : (pyStrip (removeUrls a)).isEmpty <;>
      simp [handleImageAnswer, h1, h2]

theorem autoFill_only_card_type (q : Question) (req : CardRequirements)
    (a : List Char) :
    (autoFill q req a).image_urls = req.image_urls ∧
    (autoFill q req a).call_to_action = req.call_to_action ∧
    (autoFill q req a).brand_notes = req.brand_notes := by
  unfold autoFill
  split
  · split <;> exact ⟨rfl, rfl, rfl⟩
  · exact ⟨rfl, rfl, rfl⟩

theorem next_question_req (s : Session) :
    ((next_question s).2).req = s.req := by
  unfold next_question
  rcases h1 : questionBank.find? (fun q =>
      if q.required && pyFalsyOpt (getFieldOpt s.req q.fieldId) then
        q.cond.eval s.req
      else false) with _ | q
  · rw [h1]
    rcases h2 : questionBank.find? (fun q =>
        if s.asked.contains q.id then false
        else if !q.cond.eval s.req then false
        else if fieldFilled s.req q then false
        else true) with _ | q2 <;> rw [h2]
  · rw [h1]

theorem ingest_image_urls (s : Session) (a : List Char)
    (h : pyStrip a ≠ []) :
    (ingest_answer s a).req.image_urls =
      appendNewFold s.req.image_urls (extract_urls (pyStrip a)) := by
  have hne : (pyStrip a).isEmpty = false := by
    cases he : (pyStrip a).isEmpty
    · rfl
    · exact absurd (List.isEmpty_iff.mp he) h
  simp only [ingest_answer, hne, Bool.false_eq_true, if_false]
  rcases hact : s.active with _ | q
  · simp only [hact]
    exact captureUrls_image_urls s.req (pyStrip a)
  · simp only [hact]
    have hcap := captureUrls_image_urls s.req (pyStrip a)
    obtain ⟨himg, -, -⟩ := autoFill_only_card_type q
      (applyAnswer q (captureUrls s.req (pyStrip a)) (pyStrip a)) (pyStrip a)
    rw [himg]
    by_cases hh : q.imageHandler
    · rw [show applyAnswer q (captureUrls s.req (pyStrip a)) (pyStrip a) =
          handleImageAnswer (captureUrls s.req (pyStrip a)) (pyStrip a) by
        simp [applyAnswer, hh]]
      rw [handleImageAnswer_image_urls, hcap, appendNewFold_idem]
    · rcases hf : q.fieldId with _ | f
      · rw [show applyAnswer q (captureUrls s.req (pyStrip a)) (pyStrip a) =
            captureUrls s.req (pyStrip a) by simp [applyAnswer, hh, hf]]
        exact hcap
      · rw [show applyAnswer q (captureUrls s.req (pyStrip a)) (pyStrip a) =
            setField (captureUrls s.req (pyStrip a)) f
              (if (pyStrip (removeUrls (pyStrip a))).isEmpty then
                pyStrip (pyStrip a)
              else pyStrip (removeUrls (pyStrip a))) by
          simp [applyAnswer, hh, hf]]
        rw [setField_image_urls]
        exact hcap

theorem stepEvent_nodup (s : Session) (e : Event)
    (h : s.req.image_urls.Nodup) : (stepEvent s e).req.image_urls.Nodup := by
  cases e with
  | ask =>
    unfold stepEvent
    rw [next_question_req]
    exact h
  | answer a =>
    unfold stepEvent
    by_cases hs : pyStrip a = []
    · unfold ingest_answer
      have : (pyStrip a).isEmpty = true := List.isEmpty_iff.mpr hs
      simp only [this, if_true]
      exact h
    · rw [ingest_image_urls s a hs]
      exact appendNewFold_nodup _ h

theorem reach_image_urls_nodup (evs : List Event) :
    (reach evs).req.image_urls.Nodup := by
  suffices hgen : ∀ (evs : List Event) (s : Session),
      s.req.image_urls.Nodup → (evs.foldl stepEvent s).req.image_urls.Nodup by
    exact hgen evs initSession (by simp [initSession])
  intro evs
  induction evs with
  | nil => intro s h; exact h
  | cons e rest ih =>
    intro s h
    exact ih (stepEvent s e) (stepEvent_nodup s e h)

/-! ## C6: the image URL list invariant -/

/-- C6: the record's `image_urls` list never contains duplicates in any
reachable session, and every mutation appends only unseen URLs at the
end: for every non-blank answer, `ingest_answer` extends the list by
exactly the newly-seen URLs extracted from the (stripped) answer text —
whatever question (if any) is pending — keeping the old list as a prefix;
the custom image-question handler obeys the same append-if-unseen rule. -/
theorem c6_image_urls_invariant :
    (∀ evs : List Event, (reach evs).req.image_urls.Nodup) ∧
    (∀ (s : Session) (a : List Char), pyStrip a ≠ [] →
      (ingest_answer s a).req.image_urls =
        appendNewFold s.req.image_urls (extract_urls (pyStrip a)) ∧
      s.req.image_urls <+: (ingest_answer s a).req.image_urls ∧
      (s.req.image_urls.Nodup → (ingest_answer s a).req.image_urls.Nodup) ∧
      (∀ u, u ∈ (ingest_answer s a).req.image_urls ↔
        u ∈ s.req.image_urls ∨ u ∈ extract_urls (pyStrip a))) ∧
    (∀ (req : CardRequirements) (a : List Char),
      (handleImageAnswer req a).image_urls =
        appendNewFold req.image_urls (extract_urls a) ∧
      (req.image_urls.Nodup → (handleImageAnswer req a).image_urls.Nodup)) := by
  refine ⟨reach_image_urls_nodup, ?_, ?_⟩
  · intro s a hs
    have heq := ingest_image_urls s a hs
    refine ⟨heq, ?_, ?_, ?_⟩
    · rw [heq]; exact appendNewFold_front _ _
    · intro hnd; rw [heq]; exact appendNewFold_nodup _ hnd
    · intro u; rw [heq]; exact mem_appendNewFold_iff u _ _
  · intro req a
    refine ⟨handleImageAnswer_image_urls req a, ?_⟩
    intro hnd
    rw [handleImageAnswer_image_urls req a]
    exact appendNewFold_nodup _ hnd

/-- Closed witness for `c6_image_urls_invariant`: an answer carrying a
repeated URL while no question is pending still grows the list by the one
unseen URL. -/
theorem c6_image_urls_invariant_witness :
    pyStrip "pic https://x.com/p.png https://x.com/p.png".data ≠ [] ∧
      (ingest_answer initSession
        "pic https://x.com/p.png https://x.com/p.png".data).req.image_urls =
        appendNewFold initSession.req.image_urls
          (extract_urls
            (pyStrip "pic https://x.com/p.png https://x.com/p.png".data)) ∧
      (ingest_answer initSession
        "pic https://x.com/p.png https://x.com/p.png".data).req.image_urls =
        ["https://x.com/p.png".data] :=
  ⟨by decide,
   (c6_image_urls_invariant.2.1 initSession
     "pic https://x.com/p.png https://x.com/p.png".data (by decide)).1,
   by decide⟩

/-! ## Question-bank facts and the session invariant used for C4 -/

theorem bank_field_c2a : ∀ q ∈ questionBank,
    q.fieldId = some FieldId.call_to_action → q.id = "call_to_action" := by
  intro q hq
  fin_cases hq <;> decide

theorem bank_field_brand : ∀ q ∈ questionBank,
    q.fieldId = some FieldId.brand_notes → q.id = "brand_notes" := by
  intro q hq
  fin_cases hq <;> decide

theorem bank_c2a_facts : ∀ q ∈ questionBank, q.id = "call_to_action" →
    q.required = false ∧ q.cond = Cond.businessOnly := by
  intro q hq
  fin_cases hq <;> decide

theorem bank_brand_facts : ∀ q ∈ questionBank, q.id = "brand_notes" →
    q.required = false ∧ q.cond = Cond.businessOnly := by
  intro q hq
  fin_cases hq <;> decide

theorem askedInsert_self (asked : List String) (qid : String) :
    qid ∈ askedInsert asked qid := by
  unfold askedInsert
  by_cases h : qid ∈ asked
  · rw [show (if asked.contains qid then asked else qid :: asked) = asked by
      simp [h]]
    exact h
  · rw [show (if asked.contains qid then asked else qid :: asked) =
        qid :: asked by simp [h]]
    exact List.mem_cons_self qid asked

theorem askedInsert_mono {x : String} {asked : List String} (qid : String)
    (h : x ∈ asked) : x ∈ askedInsert asked qid := by
  unfold askedInsert
  by_cases hc : qid ∈ asked
  · rw [show (if asked.contains qid then asked else qid :: asked) = asked by
      simp [hc]]
    exact h
  · rw [show (if asked.contains qid then asked else qid :: asked) =
        qid :: asked by simp [hc]]
    exact List.mem_cons_of_mem qid h

theorem sessionInv_init : SessionInv initSession := by
  refine ⟨?_, ?_, ?_⟩
  · intro q h
    simp [initSession] at h
  · intro h
    simp [initSession, pyFalsyOpt] at h
  · intro h
    simp [initSession, pyFalsyOpt] at h

theorem sessionInv_ask (s : Session) (h : SessionInv s) :
    SessionInv ((next_question s).2) := by
  obtain ⟨h1, h2, h3⟩ := h
  unfold next_question
  rcases hf1 : questionBank.find? (fun q =>
      if q.required && pyFalsyOpt (getFieldOpt s.req q.fieldId) then
        q.cond.eval s.req
      else false) with _ | q
  · rw [hf1]
    rcases hf2 : questionBank.find? (fun q =>
        if s.asked.contains q.id then false
        else if !q.cond.eval s.req then false
        else if fieldFilled s.req q then false
        else true) with _ | q
    · rw [hf2]
      refine ⟨?_, h2, h3⟩
      intro q hq
      simp at hq
    · rw [hf2]
      refine ⟨?_, ?_, ?_⟩
      · intro q2 hq2
        simp only [Option.some.injEq] at hq2
        subst hq2
        exact ⟨List.mem_of_find?_eq_some hf2, askedInsert_self s.asked q.id⟩
      · intro hcta
        exact askedInsert_mono q.id (h2 hcta)
      · intro hbn
        exact askedInsert_mono q.id (h3 hbn)
  · rw [hf1]
    refine ⟨?_, ?_, ?_⟩
    · intro q2 hq2
      simp only [Option.some.injEq] at hq2
      subst hq2
      exact ⟨List.mem_of_find?_eq_some hf1, askedInsert_self s.asked q.id⟩
    · intro hcta
      exact askedInsert_mono q.id (h2 hcta)
    · intro hbn
      exact askedInsert_mono q.id (h3 hbn)

theorem sessionInv_ingest (s : Session) (a : List Char) (h : SessionInv s) :
    SessionInv (ingest_answer s a) := by
  obtain ⟨h1, h2, h3⟩ := h
  by_cases hs : (pyStrip a).isEmpty
  · unfold ingest_answer
    simp only [hs, if_true]
    exact ⟨h1, h2, h3⟩
  · simp only [ingest_answer, hs, Bool.false_eq_true, if_false]
    rcases hact : s.active with _ | q
    · refine ⟨?_, ?_, ?_⟩
      · intro q hq
        simp at hq
      · intro hcta
        have hcta2 : pyFalsyOpt
            (captureUrls s.req (pyStrip a)).call_to_action = false := hcta
        rw [(captureUrls_other s.req (pyStrip a)).1] at hcta2
        exact h2 hcta2
      · intro hbn
        have hbn2 : pyFalsyOpt
            (captureUrls s.req (pyStrip a)).brand_notes = false := hbn
        rw [(captureUrls_other s.req (pyStrip a)).2] at hbn2
        exact h3 hbn2
    · obtain ⟨hmem, hasked⟩ := h1 q hact
      set a0 := pyStrip a with ha0
      set req1 := captureUrls s.req a0 with hreq1
      set req2 := applyAnswer q req1 a0 with hreq2
      have hcta2 : pyFalsyOpt req2.call_to_action = false →
          "call_to_action" ∈ s.asked := by
        intro hf
        rw [hreq2] at hf
        unfold applyAnswer at hf
        by_cases hh : q.imageHandler
        · rw [if_pos hh] at hf
          rw [(handleImageAnswer_other req1 a0).1, hreq1,
            (captureUrls_other s.req a0).1] at hf
          exact h2 hf
        · rw [if_neg hh] at hf
          rcases hfld : q.fieldId with _ | f
          · rw [hfld] at hf
            rw [hreq1, (captureUrls_other s.req a0).1] at hf
            exact h2 hf
          · rw [hfld] at hf
            simp only at hf
            rw [setField_call_to_action] at hf
            by_cases hfc : f = FieldId.call_to_action
            · have := bank_field_c2a q hmem (by rw [hfld, hfc])
              rw [← this]
              exact hasked
            · rw [if_neg hfc] at hf
              rw [hreq1, (captureUrls_other s.req a0).1] at hf
              exact h2 hf
      have hbn2 : pyFalsyOpt req2.brand_notes = false →
          "brand_notes" ∈ s.asked := by
        intro hf
        rw [hreq2] at hf
        unfold applyAnswer at hf
        by_cases hh : q.imageHandler
        · rw [if_pos hh] at hf
          rw [(handleImageAnswer_other req1 a0).2, hreq1,
            (captureUrls_other s.req a0).2] at hf
          exact h3 hf
        · rw [if_neg hh] at hf
          rcases hfld : q.fieldId with _ | f
          · rw [hfld] at hf
            rw [hreq1, (captureUrls_other s.req a0).2] at hf
            exact h3 hf
          · rw [hfld] at hf
            simp only at hf
            rw [setField_brand_notes] at hf
            by_cases hfc : f = FieldId.brand_notes
            · have := bank_field_brand q hmem (by rw [hfld, hfc])
              rw [← this]
              exact hasked
            · rw [if_neg hfc] at hf
              rw [hreq1, (captureUrls_other s.req a0).2] at hf
              exact h3 hf
      refine ⟨?_, ?_, ?_⟩
      · intro q2 hq2
        simp only [Option.some.injEq] at hq2
        subst hq2
        exact ⟨hmem, hasked⟩
      · intro hcta
        have hcta3 : pyFalsyOpt (autoFill q req2 a0).call_to_action = false :=
          hcta
        obtain ⟨-, hc, -⟩ := autoFill_only_card_type q req2 a0
        rw [hc] at hcta3
        exact hcta2 hcta3
      · intro hbn
        have hbn3 : pyFalsyOpt (autoFill q req2 a0).brand_notes = false := hbn
        obtain ⟨-, -, hb⟩ := autoFill_only_card_type q req2 a0
        rw [hb] at hbn3
        exact hbn2 hbn3

theorem sessionInv_reach (evs : List Event) : SessionInv (reach evs) := by
  suffices hgen : ∀ (evs : List Event) (s : Session),
      SessionInv s → SessionInv (evs.foldl stepEvent s) by
    exact hgen evs initSession sessionInv_init
  intro evs
  induction evs with
  | nil => intro s h; exact h
  | cons e rest ih =>
    intro s h
    refine ih (stepEvent s e) ?_
    cases e with
    | ask => exact sessionInv_ask s h
    | answer a => exact sessionInv_ingest s a h

theorem next_question_none_split (s : Session)
    (h : (next_question s).1 = none) :
    questionBank.find? (fun q =>
      if q.required && pyFalsyOpt (getFieldOpt s.req q.fieldId) then
        q.cond.eval s.req
      else false) = none ∧
    questionBank.find? (fun q =>
      if s.asked.contains q.id then false
      else if !q.cond.eval s.req then false
      else if fieldFilled s.req q then false
      else true) = none := by
  unfold next_question at h
  rcases hf1 : questionBank.find? (fun q =>
      if q.required && pyFalsyOpt (getFieldOpt s.req q.fieldId) then
        q.cond.eval s.req
      else false) with _ | q
  · rw [hf1] at h
    rcases hf2 : questionBank.find? (fun q =>
        if s.asked.contains q.id then false
        else if !q.cond.eval s.req then false
        else if fieldFilled s.req q then false
        else true) with _ | q
    · exact ⟨hf1, hf2⟩
    · rw [hf2] at h
      simp at h
  · rw [hf1] at h
    simp at h

theorem c2aQuestion_mem : c2aQuestion ∈ questionBank := by decide

theorem brandQuestion_mem : brandQuestion ∈ questionBank := by decide

theorem pass2_none_business (s : Session) (hinv : SessionInv s)
    (hbiz : businessPrefixB s.req = true)
    (h2 : questionBank.find? (fun q =>
      if s.asked.contains q.id then false
      else if !q.cond.eval s.req then false
      else if fieldFilled s.req q then false
      else true) = none) :
    "call_to_action" ∈ s.asked ∧ "brand_notes" ∈ s.asked := by
  obtain ⟨-, hcta, hbn⟩ := hinv
  constructor
  · have hc := List.find?_eq_none.mp h2 c2aQuestion c2aQuestion_mem
    simp only [c2aQuestion, Cond.eval, fieldFilled, getField, hbiz] at hc
    by_cases hcc : s.asked.contains "call_to_action"
    · simpa using hcc
    · rw [if_neg (by simpa using hcc)] at hc
      simp only [Bool.not_true, Bool.false_eq_true, if_false] at hc
      cases hpf : pyFalsyOpt s.req.call_to_action
      · exact hcta hpf
      · simp [hpf] at hc
  · have hc := List.find?_eq_none.mp h2 brandQuestion brandQuestion_mem
    simp only [brandQuestion, Cond.eval, fieldFilled, getField, hbiz] at hc
    by_cases hcc : s.asked.contains "brand_notes"
    · simpa using hcc
    · rw [if_neg (by simpa using hcc)] at hc
      simp only [Bool.not_true, Bool.false_eq_true, if_false] at hc
      cases hpf : pyFalsyOpt s.req.brand_notes
      · exact hbn hpf
      · simp [hpf] at hc

/-- C4 counterexample: a reachable interview run in which the card type
value contains `"business"` (it is `"my business card"`) yet the session
completes — `next_question` returns none — without the call-to-action or
brand-notes questions ever having been surfaced.  The code gates those
questions on `card_type.lower().startswith("business")`, not on
containment, so the claim as stated is false. -/
theorem c4_contains_counterexample :
    isSubstr "business".data
      ((reach c4ContainsRun).req.card_type.getD []) = true ∧
    (next_question (reach c4ContainsRun)).1 = none ∧
    "call_to_action" ∉ (reach c4ContainsRun).asked ∧
    "brand_notes" ∉ (reach c4ContainsRun).asked :=
  ⟨by decide, by decide, by decide, by decide⟩

/-- C4 (amended: the business branch is gated on the card type
*starting with* `"business"` case-insensitively, not merely containing
it): in every reachable session whose card type starts with `"business"`,
completion (`next_question` returning none) implies both the
call-to-action and brand-notes questions were surfaced earlier; whenever
either of those questions is surfaced, the three required fields are
already collected (so they come after the required questions); and in any
state whose card type does not start with `"business"` — in particular a
`"personal"` card — neither question is ever surfaced. -/
theorem c4_business_branch :
    (∀ evs : List Event, businessPrefixB (reach evs).req = true →
      (next_question (reach evs)).1 = none →
      "call_to_action" ∈ (reach evs).asked ∧
        "brand_notes" ∈ (reach evs).asked) ∧
    (∀ (s : Session) (q : Question), (next_question s).1 = some q →
      q.id = "call_to_action" ∨ q.id = "brand_notes" →
      required_fields_missing s.req = []) ∧
    (∀ (s : Session) (q : Question), businessPrefixB s.req = false →
      (next_question s).1 = some q →
      q.id ≠ "call_to_action" ∧ q.id ≠ "brand_notes") := by
  refine ⟨?_, ?_, ?_⟩
  · intro evs hbiz hnone
    obtain ⟨-, h2⟩ := next_question_none_split (reach evs) hnone
    exact pass2_none_business (reach evs) (sessionInv_reach evs) hbiz h2
  · intro s q hq hid
    unfold next_question at hq
    rcases hf1 : questionBank.find? (fun q =>
        if q.required && pyFalsyOpt (getFieldOpt s.req q.fieldId) then
          q.cond.eval s.req
        else false) with _ | q1
    · have hocc := List.find?_eq_none.mp hf1
        { id := "occasion", fieldId := some .occasion, required := true }
        (by decide)
      have hct := List.find?_eq_none.mp hf1
        { id := "card_type", fieldId := some .card_type, required := true }
        (by decide)
      have hsz := List.find?_eq_none.mp hf1
        { id := "size", fieldId := some .size, required := true }
        (by decide)
      simp only [getFieldOpt, getField, Cond.eval, Bool.true_and]
        at hocc hct hsz
      have hocc2 : pyFalsyOpt s.req.occasion = false := by
        cases h : pyFalsyOpt s.req.occasion
        · rfl
        · simp [h] at hocc
      have hct2 : pyFalsyOpt s.req.card_type = false := by
        cases h : pyFalsyOpt s.req.card_type
        · rfl
        · simp [h] at hct
      have hsz2 : pyFalsyOpt s.req.size = false := by
        cases h : pyFalsyOpt s.req.size
        · rfl
        · simp [h] at hsz
      simp [required_fields_missing, hocc2, hct2, hsz2]
    · rw [hf1] at hq
      simp only [Option.some.injEq] at hq
      rw [hq] at hf1
      have hmem := List.mem_of_find?_eq_some hf1
      have hp := List.find?_some hf1
      have hreq : q.required = false := by
        rcases hid with hid | hid
        · exact (bank_c2a_facts q hmem hid).1
        · exact (bank_brand_facts q hmem hid).1
      rw [hreq] at hp
      simp at hp
  · intro s q hbiz hq
    have hnot : ∀ hid : String, hid = "call_to_action" ∨ hid = "brand_notes" →
        q.id ≠ hid := by
      intro hid hcase hqid
      unfold next_question at hq
      rcases hf1 : questionBank.find? (fun q =>
          if q.required && pyFalsyOpt (getFieldOpt s.req q.fieldId) then
            q.cond.eval s.req
          else false) with _ | q1
      · rw [hf1] at hq
        rcases hf2 : questionBank.find? (fun q =>
            if s.asked.contains q.id then false
            else if !q.cond.eval s.req then false
            else if fieldFilled s.req q then false
            else true) with _ | q2
        · rw [hf2] at hq
          simp at hq
        · rw [hf2] at hq
          simp only [Option.some.injEq] at hq
          rw [hq] at hf2
          have hmem := List.mem_of_find?_eq_some hf2
          have hp := List.find?_some hf2
          have hcond : q.cond = Cond.businessOnly := by
            rcases hcase with rfl | rfl
            · exact (bank_c2a_facts q hmem hqid).2
            · exact (bank_brand_facts q hmem hqid).2
          have hceval : q.cond.eval s.req = false := by
            rw [hcond]
            exact hbiz
          by_cases hcc : s.asked.contains q.id
          · rw [if_pos hcc] at hp
            simp at hp
          · rw [if_neg hcc, hceval] at hp
            simp at hp
      · rw [hf1] at hq
        simp only [Option.some.injEq] at hq
        rw [hq] at hf1
        have hmem := List.mem_of_find?_eq_some hf1
        have hp := List.find?_some hf1
        have hreq : q.required = false := by
          rcases hcase with rfl | rfl
          · exact (bank_c2a_facts q hmem hqid).1
          · exact (bank_brand_facts q hmem hqid).1
        rw [hreq] at hp
        simp at hp
    exact ⟨hnot "call_to_action" (Or.inl rfl), hnot "brand_notes" (Or.inr rfl)⟩

/-- Closed witness for `c4_business_branch` on the concrete business run:
the final state starts with a `"business"` card type, `next_question`
returns none, and both business questions were surfaced along the way. -/
theorem c4_business_branch_witness :
    businessPrefixB (reach c4BusinessRun).req = true ∧
    (next_question (reach c4BusinessRun)).1 = none ∧
    ("call_to_action" ∈ (reach c4BusinessRun).asked ∧
      "brand_notes" ∈ (reach c4BusinessRun).asked) :=
  ⟨by decide, by decide,
   c4_business_branch.1 c4BusinessRun (by decide) (by decide)⟩

/-! ## C5: card-type inference ordering -/

/-- C5 counterexample: on `"corporate invite business"` the code keys the
business category on the position of `"business"` (its first listed
keyword that occurs, index 17) even though `"corporate"` occurs at
index 0, and returns `"invitation business"`; ordering by first occurrence
in the text, as the claim states, would give `"business invitation"`. -/
theorem c5_order_counterexample :
    infer_card_type_from_text "corporate invite business".data =
      some "invitation business".data ∧
    infer_card_type_claim_order "corporate invite business".data =
      some "business invitation".data ∧
    infer_card_type_from_text "corporate invite business".data ≠
      infer_card_type_claim_order "corporate invite business".data :=
  ⟨by decide, by decide, by decide⟩

theorem insertByIdx_perm (p : Nat × List Char) (l : List (Nat × List Char)) :
    (insertByIdx p l).Perm (p :: l) := by
  induction l with
  | nil => exact List.Perm.refl _
  | cons q rest ih =>
    unfold insertByIdx
    by_cases h : p.1 ≤ q.1
    · rw [if_pos h]
    · rw [if_neg h]
      exact (ih.cons q).trans (List.Perm.swap p q rest)

theorem sortByIdx_perm (l : List (Nat × List Char)) :
    (sortByIdx l).Perm l := by
  induction l with
  | nil => exact List.Perm.refl _
  | cons p rest ih =>
    unfold sortByIdx
    exact (insertByIdx_perm p (sortByIdx rest)).trans (ih.cons p)

theorem insertByIdx_sorted (p : Nat × List Char)
    (l : List (Nat × List Char))
    (h : l.Pairwise (fun a b => a.1 ≤ b.1)) :
    (insertByIdx p l).Pairwise (fun a b => a.1 ≤ b.1) := by
  induction l with
  | nil => simp [insertByIdx]
  | cons q rest ih =>
    rw [List.pairwise_cons] at h
    obtain ⟨hq, hrest⟩ := h
    unfold insertByIdx
    by_cases hle : p.1 ≤ q.1
    · rw [if_pos hle]
      refine List.Pairwise.cons ?_ (List.Pairwise.cons hq hrest)
      intro b hb
      rcases List.mem_cons.mp hb with rfl | hb2
      · exact hle
      · exact le_trans hle (hq b hb2)
    · rw [if_neg hle]
      refine List.Pairwise.cons ?_ (ih hrest)
      intro b hb
      have hb2 := (insertByIdx_perm p rest).mem_iff.mp hb
      rcases List.mem_cons.mp hb2 with rfl | hb3
      · omega
      · exact hq b hb3

theorem sortByIdx_sorted (l : List (Nat × List Char)) :
    (sortByIdx l).Pairwise (fun a b => a.1 ≤ b.1) := by
  induction l with
  | nil => simp [sortByIdx]
  | cons p rest ih => exact insertByIdx_sorted p (sortByIdx rest) ih

theorem dedupCats_of_nodup (ps : List (Nat × List Char))
    (h : (ps.map Prod.snd).Nodup) : dedupCats ps = ps.map Prod.snd := by
  suffices hgen : ∀ (ps : List (Nat × List Char)) (acc : List (List Char)),
      (acc ++ ps.map Prod.snd).Nodup →
      ps.foldl (fun acc pr =>
        if acc.contains pr.2 then acc else acc ++ [pr.2]) acc =
        acc ++ ps.map Prod.snd by
    have := hgen ps [] (by simpa using h)
    simpa [dedupCats] using this
  intro ps
  induction ps with
  | nil => intro acc _; simp
  | cons p rest ih =>
    intro acc hnd
    have hnotin : p.2 ∉ acc := by
      intro hin
      rw [List.map_cons, List.nodup_append] at hnd
      exact hnd.2.2 hin (List.mem_cons_self p.2 _)
    rw [List.foldl_cons,
      show (if acc.contains p.2 then acc else acc ++ [p.2]) = acc ++ [p.2] by
        simp [hnotin]]
    rw [ih (acc ++ [p.2]) (by simpa using hnd)]
    simp

theorem joinSpaces_singleton (x : List Char) : joinSpaces [x] = x := by
  simp [joinSpaces, List.intercalate]

theorem infer_found_eq (text : List Char) :
    cardTypeKeywordMap.foldl
      (fun acc ctk =>
        match ctk.2.findSome? (fun kw => findSub (lowerL text) kw) with
        | some idx => acc ++ [(idx, ctk.1)]
        | none => acc) [] = matchedPairs text := by
  unfold matchedPairs firstListedKeywordIdx
  rcases h1 : (["personal".data]).findSome?
      (fun kw => findSub (lowerL text) kw) with _ | i1 <;>
  rcases h2 : (["business".data, "corporate".data, "company".data]).findSome?
      (fun kw => findSub (lowerL text) kw) with _ | i2 <;>
  rcases h3 : (["invitation".data, "invite".data]).findSome?
      (fun kw => findSub (lowerL text) kw) with _ | i3 <;>
  · simp only [cardTypeKeywordMap, List.filterMap_cons, List.filterMap_nil,
      List.foldl_cons, List.foldl_nil]
    rw [h1, h2, h3]
    simp

theorem matchedPairs_snd_nodup (text : List Char) :
    ((matchedPairs text).map Prod.snd).Nodup := by
  unfold matchedPairs firstListedKeywordIdx
  rcases h1 : (["personal".data]).findSome?
      (fun kw => findSub (lowerL text) kw) with _ | i1 <;>
  rcases h2 : (["business".data, "corporate".data, "company".data]).findSome?
      (fun kw => findSub (lowerL text) kw) with _ | i2 <;>
  rcases h3 : (["invitation".data, "invite".data]).findSome?
      (fun kw => findSub (lowerL text) kw) with _ | i3 <;>
  · simp only [cardTypeKeywordMap, List.filterMap_cons, List.filterMap_nil]
    rw [h1, h2, h3]
    simp only [Option.map_some', Option.map_none', List.map_cons, List.map_nil]
    decide

theorem infer_eq_sorted_join (text : List Char)
    (h : matchedPairs text ≠ []) :
    infer_card_type_from_text text =
      some (joinSpaces ((sortByIdx (matchedPairs text)).map Prod.snd)) := by
  simp only [infer_card_type_from_text]
  rw [infer_found_eq text]
  have hne : (matchedPairs text).isEmpty = false := by
    cases he : (matchedPairs text).isEmpty
    · rfl
    · exact absurd (List.isEmpty_iff.mp he) h
  rw [hne]
  simp only [Bool.false_eq_true, if_false]
  have hnodup : (((sortByIdx (matchedPairs text)).map Prod.snd)).Nodup :=
    (((sortByIdx_perm (matchedPairs text)).map Prod.snd).nodup_iff).mpr
      (matchedPairs_snd_nodup text)
  rw [dedupCats_of_nodup _ hnodup]
  by_cases hl : ((sortByIdx (matchedPairs text)).map Prod.snd).length = 1
  · obtain ⟨x, hx⟩ := List.length_eq_one.mp hl
    rw [hl]
    simp only [if_true]
    rw [hx, joinSpaces_singleton]
    simp [hx]
  · rw [if_neg hl]

/-- C5 (amended: the matched categories are ordered by the position of the
first *listed* keyword of each category that occurs in the text — the scan
breaks at the first configured keyword found, so a later-listed keyword
occurring earlier in the text does not move the category forward — rather
than by the earliest occurrence in the text of any of its keywords): when
the occasion question is answered while cardType is still empty or
whitespace, the rule assigns the single matched category, joins several
matched categories with spaces in that key order (stably sorted,
de-duplicated), and leaves cardType untouched when nothing matched. -/
theorem c5_card_type_inference (text : List Char) :
    (infer_card_type_from_text text = none ↔ matchedPairs text = []) ∧
    (∀ (i : Nat) (ct : List Char), matchedPairs text = [(i, ct)] →
      infer_card_type_from_text text = some ct) ∧
    (matchedPairs text ≠ [] →
      infer_card_type_from_text text =
        some (joinSpaces ((sortByIdx (matchedPairs text)).map Prod.snd))) ∧
    ((sortByIdx (matchedPairs text)).Pairwise (fun a b => a.1 ≤ b.1)) ∧
    ((sortByIdx (matchedPairs text)).Perm (matchedPairs text)) ∧
    (∀ (req : CardRequirements) (a : List Char),
      (pyStrip (req.card_type.getD [])).isEmpty = true →
      (autoFill occasionQuestion req a).card_type =
        (match infer_card_type_from_text a with
         | some v => some v
         | none => req.card_type)) ∧
    (∀ (q : Question) (req : CardRequirements) (a : List Char),
      q.id ≠ "occasion" ∨ (pyStrip (req.card_type.getD [])).isEmpty = false →
      autoFill q req a = req) := by
  refine ⟨?_, ?_, infer_eq_sorted_join text, sortByIdx_sorted _,
    sortByIdx_perm _, ?_, ?_⟩
  · constructor
    · intro hnone
      by_contra hne
      rw [infer_eq_sorted_join text hne] at hnone
      simp at hnone
    · intro hempty
      simp only [infer_card_type_from_text]
      rw [infer_found_eq text, hempty]
      simp
  · intro i ct hone
    rw [infer_eq_sorted_join text (by rw [hone]; simp)]
    rw [hone]
    simp only [sortByIdx, insertByIdx, List.map_cons, List.map_nil]
    rw [joinSpaces_singleton]
  · intro req a hct
    simp only [autoFill, occasionQuestion, hct]
    simp only [decide_True, Bool.and_true, if_true]
    rcases hinf : infer_card_type_from_text a with _ | v <;> simp [hinf]
  · intro q req a hcase
    have hcond : (q.id = "occasion" &&
        (pyStrip (req.card_type.getD [])).isEmpty) = false := by
      rcases hcase with hid | hempty
      · simp [hid]
      · simp [hempty]
    simp only [autoFill, hcond]
    simp

/-- Closed witness for `c5_card_type_inference` on a two-category text. -/
theorem c5_card_type_inference_witness :
    matchedPairs "my personal business meetup".data ≠ [] ∧
      infer_card_type_from_text "my personal business meetup".data =
        some "personal business".data := by
  refine ⟨by decide, ?_⟩
  rw [(c5_card_type_inference "my personal business meetup".data).2.2.1
    (by decide)]
  decide

/-! ## C2: the balanced-segment scanner -/

theorem stopsAtB_zero (o c : Char) (st : ScanState) (ch : Char)
    (rest : List Char) :
    stopsAtB o c st (ch :: rest) 0 = (scanStep o c st ch).2 := rfl

theorem stopsAtB_succ (o c : Char) (st : ScanState) (ch : Char)
    (rest : List Char) (k : Nat) :
    stopsAtB o c st (ch :: rest) (k + 1) =
      stopsAtB o c (scanStep o c st ch).1 rest k := by
  simp [stopsAtB, runScan]

theorem balLoop_cons (o c : Char) (st : ScanState) (ch : Char)
    (rest : List Char) :
    balLoop o c st (ch :: rest) =
      (if (scanStep o c st ch).2 then some 0
       else (balLoop o c (scanStep o c st ch).1 rest).map (· + 1)) := rfl

theorem balLoop_eq_some_iff (o c : Char) (st : ScanState) (s : List Char)
    (j : Nat) :
    balLoop o c st s = some j ↔
      (stopsAtB o c st s j = true ∧
        ∀ k, k < j → stopsAtB o c st s k = false) := by
  induction s generalizing st j with
  | nil =>
    simp [balLoop, stopsAtB]
  | cons ch rest ih =>
    by_cases hr : (scanStep o c st ch).2
    · rw [balLoop_cons, if_pos hr]
      constructor
      · intro hj
        simp only [Option.some.injEq] at hj
        subst hj
        refine ⟨by rw [stopsAtB_zero]; exact hr, ?_⟩
        intro k hk
        omega
      · rintro ⟨hstop, hmin⟩
        rcases j with _ | j2
        · rfl
        · have := hmin 0 (by omega)
          rw [stopsAtB_zero] at this
          rw [this] at hr
          simp at hr
    · rw [balLoop_cons, if_neg hr]
      rcases j with _ | j2
      · constructor
        · intro hj
          rw [Option.map_eq_some'] at hj
          obtain ⟨j0, -, hj0⟩ := hj
          omega
        · rintro ⟨hstop, -⟩
          rw [stopsAtB_zero] at hstop
          rw [hstop] at hr
          simp at hr
      · rw [show (balLoop o c (scanStep o c st ch).1 rest).map (· + 1) =
            some (j2 + 1) ↔
            balLoop o c (scanStep o c st ch).1 rest = some j2 by
          rw [Option.map_eq_some']
          constructor
          · rintro ⟨j0, hj0, hadd⟩
            have : j0 = j2 := by omega
            rw [← this]
            exact hj0
          · intro hj
            exact ⟨j2, hj, rfl⟩]
        rw [ih]
        constructor
        · rintro ⟨hstop, hmin⟩
          refine ⟨by rw [stopsAtB_succ]; exact hstop, ?_⟩
          intro k hk
          rcases k with _ | k2
          · rw [stopsAtB_zero]
            simpa using hr
          · rw [stopsAtB_succ]
            exact hmin k2 (by omega)
        · rintro ⟨hstop, hmin⟩
          rw [stopsAtB_succ] at hstop
          refine ⟨hstop, ?_⟩
          intro k hk
          have := hmin (k + 1) (by omega)
          rw [stopsAtB_succ] at this
          exact this

theorem balLoop_eq_none_iff (o c : Char) (st : ScanState) (s : List Char) :
    balLoop o c st s = none ↔ ∀ j, stopsAtB o c st s j = false := by
  constructor
  · intro hnone j
    cases hstop : stopsAtB o c st s j
    · rfl
    · exfalso
      have hex : ∃ k, stopsAtB o c st s k = true := ⟨j, hstop⟩
      have hwf := Nat.find_spec hex
      have hmin := fun k (hk : k < Nat.find hex) => Nat.find_min hex hk
      have : balLoop o c st s = some (Nat.find hex) := by
        rw [balLoop_eq_some_iff]
        refine ⟨hwf, ?_⟩
        intro k hk
        have := hmin k hk
        cases h : stopsAtB o c st s k
        · rfl
        · exact absurd h this
      rw [this] at hnone
      simp at hnone
  · intro hall
    cases hb : balLoop o c st s
    · rfl
    · rename_i j
      rw [balLoop_eq_some_iff] at hb
      rw [hall j] at hb
      simp at hb

/-- C2: the balanced-segment scanner treats everything inside double-quoted
string literals as inert — no depth change and no return while in a
string, and an escaped character (in particular an escaped quote) never
terminates the string — the loop returns exactly at a closing character
processed outside a string when the depth counter comes back to zero
(the character equals the closer, is neither a quote nor the opener, and
the depth before it is 1), and the extracted segment is the smallest such
prefix: `message[start : j + 1]` for the least relative index `j` at which
the scan returns, with none when the depth never returns to zero. -/
theorem c2_balanced_segment (message : List Char) (start : Nat)
    (o c : Char) :
    (∀ (st : ScanState) (ch : Char), st.inString = true →
      (scanStep o c st ch).1.depth = st.depth ∧
        (scanStep o c st ch).2 = false) ∧
    (∀ (st : ScanState) (ch : Char), st.inString = true → st.escape = true →
      (scanStep o c st ch).1.inString = true ∧
        (scanStep o c st ch).1.escape = false) ∧
    (∀ (st : ScanState) (ch : Char),
      (scanStep o c st ch).2 = true ↔
        (st.inString = false ∧ ch ≠ '"' ∧ ch ≠ o ∧ ch = c ∧
          st.depth = 1)) ∧
    (∀ seg, extract_balanced_segment message start o c = some seg ↔
      ∃ j, stopsAtB o c scanInit (message.drop start) j = true ∧
        (∀ k, k < j → stopsAtB o c scanInit (message.drop start) k = false) ∧
        seg = (message.drop start).take (j + 1)) ∧
    (extract_balanced_segment message start o c = none ↔
      ∀ j, stopsAtB o c scanInit (message.drop start) j = false) := by
  refine ⟨?_, ?_, ?_, ?_, ?_⟩
  · intro st ch hin
    unfold scanStep
    rw [if_pos hin]
    by_cases he : st.escape
    · rw [if_pos he]
      exact ⟨rfl, rfl⟩
    · rw [if_neg he]
      by_cases hb : ch = '\\'
      · rw [if_pos hb]
        exact ⟨rfl, rfl⟩
      · rw [if_neg hb]
        by_cases hq : ch = '"'
        · rw [if_pos hq]
          exact ⟨rfl, rfl⟩
        · rw [if_neg hq]
          exact ⟨rfl, rfl⟩
  · intro st ch hin he
    unfold scanStep
    rw [if_pos hin, if_pos he]
    exact ⟨hin, rfl⟩
  · intro st ch
    unfold scanStep
    by_cases hin : st.inString
    · rw [if_pos hin]
      constructor
      · intro hret
        exfalso
        by_cases he : st.escape
        · rw [if_pos he] at hret; simp at hret
        · rw [if_neg he] at hret
          by_cases hb : ch = '\\'
          · rw [if_pos hb] at hret; simp at hret
          · rw [if_neg hb] at hret
            by_cases hq : ch = '"'
            · rw [if_pos hq] at hret; simp at hret
            · rw [if_neg hq] at hret; simp at hret
      · rintro ⟨hfalse, -⟩
        rw [hin] at hfalse
        simp at hfalse
    · rw [if_neg hin]
      by_cases hq : ch = '"'
      · rw [if_pos hq]
        simp [hq, hin]
      · rw [if_neg hq]
        by_cases hop : ch = o
        · rw [if_pos hop]
          simp [hop, hq, hin]
        · rw [if_neg hop]
          by_cases hcl : ch = c
          · rw [if_pos hcl]
            simp only [eq_self_iff_true, true_and]
            constructor
            · intro hdep
              refine ⟨by simpa using hin, hq, hop, hcl, ?_⟩
              have : st.depth - 1 = 0 := by simpa using hdep
              omega
            · rintro ⟨-, -, -, -, hdep⟩
              rw [hdep]
              simp
          · rw [if_neg hcl]
            simp [hcl, hin]
  · intro seg
    unfold extract_balanced_segment
    rw [Option.map_eq_some']
    constructor
    · rintro ⟨j, hj, hseg⟩
      rw [balLoop_eq_some_iff] at hj
      exact ⟨j, hj.1, hj.2, hseg.symm⟩
    · rintro ⟨j, hstop, hmin, hseg⟩
      refine ⟨j, ?_, hseg.symm⟩
      rw [balLoop_eq_some_iff]
      exact ⟨hstop, hmin⟩
  · unfold extract_balanced_segment
    rw [Option.map_eq_none', balLoop_eq_none_iff]

/-- Closed witness for `c2_balanced_segment`: the scanner on a concrete
in-string state, an escaped quote, and a concrete extraction where a brace
inside a string literal is ignored. -/
theorem c2_balanced_segment_witness :
    ((scanStep '{' '}' { depth := 3, inString := true, escape := false }
        '}').1.depth = 3 ∧
      (scanStep '{' '}' { depth := 3, inString := true, escape := false }
        '}').2 = false) ∧
    ((scanStep '{' '}' { depth := 1, inString := true, escape := true }
        '"').1.inString = true ∧
      (scanStep '{' '}' { depth := 1, inString := true, escape := true }
        '"').1.escape = false) ∧
    extract_balanced_segment "x\x7b\"a\x7d\": 1\x7d y".data 1 '{' '}' =
      some "\x7b\"a\x7d\": 1\x7d".data := by
  refine ⟨(c2_balanced_segment [] 0 '{' '}').1 _ '}' rfl,
    (c2_balanced_segment [] 0 '{' '}').2.1 _ '"' rfl rfl, ?_⟩
  exact ((c2_balanced_segment "x\x7b\"a\x7d\": 1\x7d y".data 1 '{' '}').2.2.2.1
    "\x7b\"a\x7d\": 1\x7d".data).mpr ⟨8, by decide, by decide, by decide⟩

/-! ## C1: best-effort JSON object recovery -/

/-- C1: `safe_parse_json` tries, in order, the balanced brace segment,
then the balanced bracket segment, then — only when neither bracket type
yielded a candidate — the whole stripped text, returning the first
candidate the (external, abstract) parser turns into a top-level key-value
mapping; any result is a mapping; and the outcome is none exactly when
every candidate fails to parse or parses to a non-mapping (a bare list or
scalar never counts as success). -/
theorem c1_parse_best_effort (parse : List Char → Option PyVal)
    (payload : List Char) :
    (safe_parse_json parse payload =
      (if (pyStrip payload).isEmpty then none
       else
        ((collectSegment (pyStrip payload) '{' '}').toList ++
         (collectSegment (pyStrip payload) '[' ']').toList ++
         (if collectSegment (pyStrip payload) '{' '}' = none ∧
             collectSegment (pyStrip payload) '[' ']' = none then
           [pyStrip payload]
          else [])).findSome? (fun cand =>
            match parse cand with
            | none => none
            | some parsed => if parsed.isDict then some parsed else none))) ∧
    (∀ v, safe_parse_json parse payload = some v → v.isDict = true) ∧
    ((pyStrip payload).isEmpty = false →
      (safe_parse_json parse payload = none ↔
        ∀ cand ∈ iter_json_candidates (pyStrip payload),
          (parse cand).all (fun v => !v.isDict) = true)) := by
  have hcand : ∀ p : List Char, iter_json_candidates p =
      (collectSegment p '{' '}').toList ++
      (collectSegment p '[' ']').toList ++
      (if collectSegment p '{' '}' = none ∧
          collectSegment p '[' ']' = none then [p] else []) := by
    intro p
    unfold iter_json_candidates
    rcases h1 : collectSegment p '{' '}' with _ | s1 <;>
      rcases h2 : collectSegment p '[' ']' with _ | s2 <;> simp
  have hmain : safe_parse_json parse payload =
      (if (pyStrip payload).isEmpty then none
       else (iter_json_candidates (pyStrip payload)).findSome? (fun cand =>
          match parse cand with
          | none => none
          | some parsed => if parsed.isDict then some parsed else none)) := by
    unfold safe_parse_json
    by_cases hp : payload.isEmpty
    · rw [if_pos hp]
      have : pyStrip payload = [] := by
        rw [List.isEmpty_iff.mp hp]
        rfl
      rw [if_pos (by simp [this])]
    · rw [if_neg hp]
  refine ⟨?_, ?_, ?_⟩
  · rw [hmain, hcand (pyStrip payload)]
  · intro v hv
    rw [hmain] at hv
    by_cases hp : (pyStrip payload).isEmpty
    · rw [if_pos hp] at hv
      simp at hv
    · rw [if_neg hp] at hv
      obtain ⟨cand, -, hcv⟩ := List.exists_of_findSome?_eq_some hv
      rcases hparse : parse cand with _ | parsed
      · rw [hparse] at hcv
        simp at hcv
      · rw [hparse] at hcv
        dsimp only at hcv
        by_cases hd : parsed.isDict
        · rw [if_pos hd] at hcv
          simp only [Option.some.injEq] at hcv
          rw [← hcv]
          exact hd
        · rw [if_neg hd] at hcv
          simp at hcv
  · intro hp
    rw [hmain, if_neg (by simp [hp])]
    constructor
    · intro hnone cand hmem
      have := List.findSome?_eq_none_iff.mp hnone cand hmem
      rcases hparse : parse cand with _ | parsed
      · simp [Option.all]
      · rw [hparse] at this
        dsimp only at this
        by_cases hd : parsed.isDict
        · rw [if_pos hd] at this
          simp at this
        · simp [Option.all, hd]
    · intro hall
      rw [List.findSome?_eq_none_iff]
      intro cand hmem
      have := hall cand hmem
      rcases hparse : parse cand with _ | parsed
      · rfl
      · rw [hparse] at this
        simp only [Option.all] at this
        have hd : parsed.isDict = false := by
          cases hdd : parsed.isDict
          · rfl
          · rw [hdd] at this
            simp at this
        dsimp only
        rw [if_neg (by simp [hd])]

/-- Closed witness for `c1_parse_best_effort`: plain prose with no braces
or brackets — the sole candidate is the whole text, and with no candidate
parsing to a mapping the result is none (the spec's prose example). -/
theorem c1_parse_best_effort_witness :
    (pyStrip "hello there, plain prose".data).isEmpty = false ∧
      safe_parse_json stubParse "hello there, plain prose".data = none :=
  ⟨by decide,
   ((c1_parse_best_effort stubParse "hello there, plain prose".data).2.2
     (by decide)).mpr (by decide)⟩

/-! ## C3: HTML document extraction -/

/-- C3: whenever the trimmed, fence-stripped text contains a closing
`</html>` tag (case-insensitively) and at least one of a doctype
declaration or an opening `<html` tag, `extract_html_document` returns the
slice of the text from the smaller of the two present start positions
through the end of the (last) closing `</html>` tag inclusive, trimmed. -/
theorem c3_extract_document (payload t : List Char) (i st : Nat)
    (hproc : htmlProcessed payload = some t)
    (hend : rfindSub (lowerL t) "</html>".data = some i)
    (hstart : startIndexOf (lowerL t) = some st) :
    extract_html_document payload =
      some (pyStrip ((t.take (i + 7)).drop st)) := by
  unfold extract_html_document
  rw [hproc]
  show docCore t = _
  simp only [docCore, hstart, hend]

/-- Closed witness for `c3_extract_document`: the spec's example
`"blah <!DOCTYPE html><html>...</html> blah"` yields exactly the substring
from `<!DOCTYPE` through `</html>` inclusive. -/
theorem c3_extract_document_witness :
    extract_html_document
      "blah <!DOCTYPE html><html>...</html> blah".data =
      some "<!DOCTYPE html><html>...</html>".data := by
  rw [c3_extract_document "blah <!DOCTYPE html><html>...</html> blah".data
    "blah <!DOCTYPE html><html>...</html> blah".data 29 5 (by decide)
    (by decide) (by decide)]
  decide
